import Mathlib

/-!
Verification development for the Plan-Session Orchestration Engine
(`plan-mode` module of the agent-copilot repository).

The TypeScript source is shallowly embedded: JavaScript strings are modelled
as Lean `String` (sequences of characters; the UTF-16 code-unit/codepoint
distinction is immaterial for the analyzed properties), the filesystem and
the workspace-path resolver are explicit parameters, and every fallible
operation returns data rather than throwing, exactly as the source's tool
executors do.
-/

namespace PlanMode

/-! ## JavaScript string primitives

The source relies on `String.prototype.trim`, `split`, `slice`,
`toLowerCase`, `includes` and regex scans.  Each is embedded below over
`List Char`. -/

/-- Whitespace class used by JS `trim` and the `\s` regex class
(restricted to the ASCII whitespace actually occurring in plan texts). -/
def isJsWs (c : Char) : Bool :=
  c = ' ' || c = '\t' || c = '\n' || c = '\r' || c = '\x0b' || c = '\x0c'

/-- JS `String.prototype.trim`. -/
def jsTrim (s : String) : String :=
  String.mk (((s.data.dropWhile isJsWs).reverse.dropWhile isJsWs).reverse)

/-- JS `String.prototype.toLowerCase` (ASCII). -/
def jsToLower (s : String) : String :=
  String.mk (s.data.map Char.toLower)

/-- Splitter shared by the embeddings of JS `split` with a one-character
separator and of multiline anchoring.  Splits at every character
satisfying `p`; always returns at least one segment, like JS `split`. -/
def splitPredGo (p : Char → Bool) : List Char → List (List Char)
  | [] => [[]]
  | c :: cs =>
      match splitPredGo p cs with
      | [] => [[]]
      | seg :: rest => if p c then [] :: seg :: rest else (c :: seg) :: rest

/-- JS `s.split(sep)` for a single-character separator `sep`. -/
def splitSep (sep : Char) (s : String) : List String :=
  (splitPredGo (fun c => c == sep) s.data).map String.mk

/-- The lines of a text as seen by a JS regex with the `m` flag: `^`/`$`
match around every `\n` and `\r` line terminator. -/
def splitLines (s : String) : List String :=
  (splitPredGo (fun c => c == '\n' || c == '\r') s.data).map String.mk

/-- JS `content.split(/\r?\n/)` as used by the search-text line scan. -/
def splitRNGo : List Char → List (List Char)
  | [] => [[]]
  | '\r' :: '\n' :: cs => [] :: splitRNGo cs
  | '\n' :: cs => [] :: splitRNGo cs
  | c :: cs =>
      match splitRNGo cs with
      | [] => [[c]]
      | seg :: rest => (c :: seg) :: rest

/-- JS `content.split(/\r?\n/)`. -/
def splitRN (s : String) : List String :=
  (splitRNGo s.data).map String.mk

/-- Case-insensitive equality of characters (ASCII), for the `i` regex flag. -/
def charCiEq (a b : Char) : Bool :=
  a.toLower = b.toLower

/-- Case-insensitive prefix test over character lists. -/
def ciPrefix : List Char → List Char → Bool
  | [], _ => true
  | _ :: _, [] => false
  | p :: ps, c :: cs => charCiEq p c && ciPrefix ps cs

/-- JS `s.replace(pat, "")` with a `gi`-flagged literal pattern: removes
every case-insensitive, leftmost-first, non-overlapping occurrence.
The `fuel` argument only drives structural recursion; one unit is spent
per character consumed, so `fuel = l.length` is always sufficient. -/
def removeAllCIFuel (pat : List Char) : Nat → List Char → List Char
  | 0, l => l
  | _ + 1, [] => []
  | fuel + 1, c :: cs =>
      if pat ≠ [] ∧ ciPrefix pat (c :: cs) then
        removeAllCIFuel pat fuel ((c :: cs).drop pat.length)
      else
        c :: removeAllCIFuel pat fuel cs

/-- JS `s.replace(/pat/gi, "")` for a literal pattern. -/
def removeAllCI (pat : String) (s : String) : String :=
  String.mk (removeAllCIFuel pat.data s.data.length s.data)

/-- JS `haystack.includes(needle)`. -/
def strIncludes (hay needle : String) : Bool :=
  go hay.data needle.data
where
  go : List Char → List Char → Bool
    | l, sub =>
        if sub.isPrefixOf l then true
        else match l with
          | [] => false
          | _ :: cs => go cs sub

/-- Maximal run of ASCII digits at the head of a character list
(the `\d+` regex atom). -/
def spanDigits : List Char → List Char × List Char
  | [] => ([], [])
  | c :: cs =>
      if c.isDigit then
        let p := spanDigits cs
        (c :: p.1, p.2)
      else ([], c :: cs)

/-! ## Output truncation (source: `truncateOutput`, plan-mode lines 234-240) -/

/-- `MAX_TOOL_OUTPUT` constant of the source. -/
def MAX_TOOL_OUTPUT : Nat := 2000

/-- The truncation-notice suffix of the source's template literal,
reporting `n` dropped characters. -/
def truncNotice (n : Nat) : String :=
  "\n... (truncated " ++ toString n ++ " characters)"

/-- Source `truncateOutput`: inputs of at most 2000 characters pass through;
longer inputs keep their first 2000 characters and gain the notice suffix. -/
def truncateOutput (value : String) : String :=
  if value.data.length ≤ MAX_TOOL_OUTPUT then value
  else
    String.mk (value.data.take MAX_TOOL_OUTPUT) ++
      truncNotice (value.data.length - MAX_TOOL_OUTPUT)

/-! ## Step-reference substitution (source: `executePlanTools` line 400)

`rawArgument.replace(/#E(\d+)/g, (_, id) => variables[id] ?? "#E" + id)`
is a single left-to-right scan: at each position the scanner tries to read a
token `#E<digits>` (greedy digit run); a token is replaced by the recorded
output of step `<digits>` when one exists and kept literally otherwise;
replacement text is emitted verbatim and never rescanned. -/

/-- The per-pass variables table (a JS object with string keys); updates are
prepended, so `List.lookup` returning the first binding models
last-write-wins assignment. -/
def lookupVar (vars : List (String × String)) (k : String) : Option String :=
  List.lookup k vars

/-- The regex-replace scan.  `fuel` only drives structural recursion; at
least one character is consumed per unit, so `fuel = l.length` suffices,
and on fuel exhaustion the remainder is passed through unchanged. -/
def replaceERefsFuel (vars : List (String × String)) : Nat → List Char → List Char
  | 0, l => l
  | _ + 1, [] => []
  | _ + 1, [c] => [c]
  | fuel + 1, c1 :: c2 :: rest =>
      if c1 = '#' ∧ c2 = 'E' then
        let p := spanDigits rest
        if p.1 = [] then '#' :: 'E' :: replaceERefsFuel vars fuel rest
        else
          (match lookupVar vars (String.mk p.1) with
           | some o => o.data
           | none => '#' :: 'E' :: p.1) ++ replaceERefsFuel vars fuel p.2
      else c1 :: replaceERefsFuel vars fuel (c2 :: rest)

/-- Source behavior of the argument-resolution step. -/
def replaceERefs (vars : List (String × String)) (s : String) : String :=
  String.mk (replaceERefsFuel vars s.data.length s.data)

/-- Specification-side view of the same scan: the argument decomposed into
literal characters and reference tokens. -/
inductive PTok where
  | lit (c : Char)
  | ref (ds : List Char)
deriving DecidableEq

/-- Tokenization of an argument (same scan as `replaceERefsFuel`, but
keeping the tokens instead of replacing them). -/
def tokenizeFuel : Nat → List Char → List PTok
  | 0, l => l.map PTok.lit
  | _ + 1, [] => []
  | _ + 1, [c] => [PTok.lit c]
  | fuel + 1, c1 :: c2 :: rest =>
      if c1 = '#' ∧ c2 = 'E' then
        let p := spanDigits rest
        if p.1 = [] then PTok.lit '#' :: PTok.lit 'E' :: tokenizeFuel fuel rest
        else PTok.ref p.1 :: tokenizeFuel fuel p.2
      else PTok.lit c1 :: tokenizeFuel fuel (c2 :: rest)

/-- Reference tokens of an argument string. -/
def tokenizeRefs (s : String) : List PTok :=
  tokenizeFuel s.data.length s.data

/-- One token rendered under a variables table: a resolved reference becomes
the recorded output, an unresolved one stays the literal token text. -/
def renderTok (vars : List (String × String)) : PTok → List Char
  | PTok.lit c => [c]
  | PTok.ref ds =>
      match lookupVar vars (String.mk ds) with
      | some o => o.data
      | none => '#' :: 'E' :: ds

/-- Concatenation of rendered tokens. -/
def joinL : List (List Char) → List Char
  | [] => []
  | l :: ls => l ++ joinL ls

/-- Specification-side resolution: every token rendered, in order. -/
def renderRefs (vars : List (String × String)) (s : String) : String :=
  String.mk (joinL ((tokenizeRefs s).map (renderTok vars)))

/-- Whether `s` still contains the literal reference token `#E<ds>`
(an occurrence the replace scan itself would recognize). -/
def hasERefToken (s : String) (k : String) : Bool :=
  (tokenizeRefs s).any (fun t => t = PTok.ref k.data)

/-! ## Plan grammar (source: `executePlanTools` lines 393-398)

The source scans `session.planMarkdown` with the global multiline regex
`^#E(\d+)\s*=\s*([A-Za-z0-9_]+)\[(.*)\]\s*$`.  Because `.` and the
character classes used cannot cross a line terminator, every match lies
within one line (a trailing `\s*` may swallow the terminator itself, which
affects no further match since `^` re-anchors at the next line start), so
the exec loop is equivalent to matching each line independently, in
textual order. -/

/-- Characters of the `[A-Za-z0-9_]` tool-name class. -/
def isToolChar (c : Char) : Bool :=
  c.isAlphanum || c = '_'

/-- Drop trailing regex-`\s` characters (the `\s*$` tail of the pattern). -/
def dropTrailingWs (l : List Char) : List Char :=
  (l.reverse.dropWhile isJsWs).reverse

/-- One step line as captured by the pattern: the digit string of the step
id, the tool name exactly as written, and the raw (unresolved) argument. -/
structure ParsedStep where
  idStr : String
  toolRaw : String
  rawArg : String
deriving DecidableEq

/-- Matching of a single line against
`^#E(\d+)\s*=\s*([A-Za-z0-9_]+)\[(.*)\]\s*$`.  The greedy `(.*)` followed
by `\]\s*$` captures everything up to the last `]` that is followed only
by whitespace. -/
def matchStepLine (line : String) : Option ParsedStep :=
  match line.data with
  | '#' :: 'E' :: rest =>
      let pd := spanDigits rest
      if pd.1 = [] then none
      else
        match pd.2.dropWhile isJsWs with
        | '=' :: r3 =>
            let r4 := r3.dropWhile isJsWs
            let nm := r4.takeWhile isToolChar
            let r5 := r4.dropWhile isToolChar
            if nm = [] then none
            else
              match r5 with
              | '[' :: r6 =>
                  let r7 := dropTrailingWs r6
                  match r7.getLast? with
                  | some ']' => some ⟨String.mk pd.1, String.mk nm, String.mk r7.dropLast⟩
                  | _ => none
              | _ => none
        | _ => none
  | _ => none

/-- The ordered list of recognized steps of a plan text: each line matching
the step pattern, in textual appearance order. -/
def parsePlanSteps (plan : String) : List ParsedStep :=
  (splitLines plan).filterMap matchStepLine

/-! ## Sandboxed filesystem model

The executors see the filesystem only through `fs.stat`, `fs.readdir` and
`fs.readFile`.  A filesystem is a partial map from paths (component lists)
to entries; a file records its `stat.size` in bytes and its text content,
with `content = none` standing for a file whose read fails.  The
workspace-path resolver is the external collaborator of spec §6, modelled
as a parameter.  The platform-specific message of a failed filesystem call
(`error?.message`), which the source only interpolates into result
strings, is likewise a parameter `emsg`. -/

/-- A filesystem entry: a file (stat size, readable content or `none` for a
read failure) or a directory (entry names as returned by `readdir`). -/
inductive FsEntry where
  | file (size : Nat) (content : Option String)
  | dir (entries : List String)
deriving DecidableEq

/-- A filesystem: paths are component lists; `none` means `stat` fails. -/
def Fs : Type := List String → Option FsEntry

/-- Modelled from the spec: the workspace path resolver collaborator
(spec §6, `provider.resolveWorkspacePath` of the view-provider module,
which is not among the analyzed sources).  It maps a relative-or-absolute
path string to a path confined to the workspace root, or `none` when no
workspace root is available. -/
def Resolver : Type := String → Option (List String)

/-- Model of `path.relative(root, p)` for paths inside the workspace. -/
def pathRelative (root p : List String) : String :=
  if p.take root.length = root then "/".intercalate (p.drop root.length)
  else "/".intercalate p

/-- Insertion into a lexicographically sorted list of names. -/
def insertSorted (a : String) : List String → List String
  | [] => [a]
  | b :: bs => if a ≤ b then a :: b :: bs else b :: insertSorted a bs

/-- Model of the `localeCompare` sort of directory entries. -/
def sortStrings : List String → List String
  | [] => []
  | a :: as => insertSorted a (sortStrings as)

/-- Source `listFiles` (plan-mode lines 242-264): lists a directory's
entries sorted by name, directories suffixed with `/`; every failure is a
result string, never an exception. -/
def listFiles (resolve : Resolver) (fs : Fs) (emsg : List String → String)
    (argument : String) : String :=
  match resolve (if argument = "" then "." else argument) with
  | none => "Workspace folder is not available for ListFiles."
  | some resolved =>
      match fs resolved with
      | some (FsEntry.dir entries) =>
          if entries.isEmpty then "(empty directory)"
          else
            let workspaceRoot := (resolve ".").getD resolved
            let relativeBase0 := pathRelative workspaceRoot resolved
            let relativeBase := if relativeBase0 = "" then "." else relativeBase0
            "\n".intercalate ((sortStrings entries).map (fun name =>
              relativeBase ++ "/" ++ name ++
                (match fs (resolved ++ [name]) with
                 | some (FsEntry.dir _) => "/"
                 | _ => "")))
      | _ => "ListFiles error: " ++ emsg resolved

/-- Source `readFile` (plan-mode lines 266-282): rejects directories with
an explicit error string, truncates successful reads, and converts every
filesystem failure into a result string. -/
def readFile (resolve : Resolver) (fs : Fs) (emsg : List String → String)
    (argument : String) : String :=
  match resolve argument with
  | none => "Unable to resolve path for ReadFile."
  | some resolved =>
      match fs resolved with
      | none => "ReadFile error: " ++ emsg resolved
      | some (FsEntry.dir _) => "ReadFile error: target is a directory."
      | some (FsEntry.file _ none) => "ReadFile error: " ++ emsg resolved
      | some (FsEntry.file _ (some data)) => truncateOutput data

/-! ## Search-text executor (source: `searchText`, plan-mode lines 284-385) -/

/-- The skip set applied to directory-entry names before they are enqueued
(source lines 299-306). -/
def skipDirectories : List String :=
  [".git", "node_modules", ".turbo", ".next", "dist", "build"]

/-- Observable state of one search traversal.  Besides the source's own
`results` and `scannedFiles`, the model records which paths were passed to
`fs.readFile` (`opened`) and which paths were pushed onto the queue from a
directory listing (`pushed`); both are direct traces of the source's
filesystem calls. -/
structure SearchState where
  results : List String
  scanned : Nat
  opened : List (List String)
  pushed : List (List String)
deriving DecidableEq

/-- Initial search state. -/
def searchInit : SearchState := ⟨[], 0, [], []⟩

/-- `path.relative(workspaceRoot, current) || path.basename(current)`. -/
def relDisplay (root current : List String) : String :=
  let r := pathRelative root current
  if r = "" then (current.getLast?).getD "" else r

/-- One line's match test: the compiled case-insensitive regex when it
compiled, otherwise the lowercase-substring fallback (source lines 362-370). -/
def lineMatches (rx : Option (String → Bool)) (lowerPattern : String)
    (line : String) : Bool :=
  match rx with
  | some f => f line
  | none => strIncludes (jsToLower line) lowerPattern

/-- The per-file line loop (source lines 361-376): scans lines in order
while fewer than 40 results have accumulated, appending
`rel:lineNumber: trimmedLine` for each match. -/
def addMatches (matchLine : String → Bool) (relName : String) :
    List String → Nat → List String → List String
  | [], _, results => results
  | line :: restL, idx, results =>
      if results.length < 40 then
        addMatches matchLine relName restL (idx + 1)
          (if matchLine line then
            results ++ [relName ++ ":" ++ toString (idx + 1) ++ ": " ++ jsTrim line]
          else results)
      else results

/-- The breadth-first traversal loop (source lines 320-378).  `fuel` only
bounds the recursion (the source loop terminates on every finite
filesystem); every claim about the loop is proved for every fuel value.
The loop stops when the queue is empty, 120 files have been scanned, or 40
results are collected; visited paths are skipped; directory entries are
filtered by name against `skipDirectories` before being enqueued; files
larger than 200,000 bytes are skipped before any read. -/
def searchLoop (fs : Fs) (rx : Option (String → Bool)) (lowerPattern : String)
    (root : List String) :
    Nat → List (List String) → List (List String) → SearchState → SearchState
  | 0, _, _, st => st
  | fuel + 1, queue, visited, st =>
      if 0 < queue.length ∧ st.scanned < 120 ∧ st.results.length < 40 then
        match queue with
        | [] => st
        | current :: rest =>
            if visited.contains current then
              searchLoop fs rx lowerPattern root fuel rest visited st
            else
              let visited' := current :: visited
              match fs current with
              | none => searchLoop fs rx lowerPattern root fuel rest visited' st
              | some (FsEntry.dir entries) =>
                  let newPaths :=
                    (entries.filter (fun e => !(skipDirectories.contains e))).map
                      (fun e => current ++ [e])
                  searchLoop fs rx lowerPattern root fuel (rest ++ newPaths) visited'
                    { st with pushed := st.pushed ++ newPaths }
              | some (FsEntry.file size content) =>
                  if 200000 < size then
                    searchLoop fs rx lowerPattern root fuel rest visited' st
                  else
                    let st1 := { st with scanned := st.scanned + 1,
                                         opened := st.opened ++ [current] }
                    match content with
                    | none => searchLoop fs rx lowerPattern root fuel rest visited' st1
                    | some text =>
                        let newResults := addMatches (lineMatches rx lowerPattern)
                          (relDisplay root current) (splitRN text) 0 st1.results
                        searchLoop fs rx lowerPattern root fuel rest visited'
                          { st1 with results := newResults }
      else st

/-- The `[pattern, rawPath]` destructuring of
`argument.split("|").map(part => part.trim())` (source line 285). -/
def searchArgParts (argument : String) : List String :=
  (splitSep '|' argument).map jsTrim

/-- The pattern extracted from a search-text argument. -/
def searchPatternOf (argument : String) : String :=
  (searchArgParts argument).headD ""

/-- The optional raw path extracted from a search-text argument. -/
def searchRawPathOf (argument : String) : Option String :=
  (searchArgParts argument).get? 1

/-- The string handed to the workspace resolver: `rawPath || "."`. -/
def searchStartArg (argument : String) : String :=
  match searchRawPathOf argument with
  | none => "."
  | some p => if p = "" then "." else p

/-- The search-text result together with its traversal trace and the
resolved start path. -/
structure SearchOut where
  output : String
  trace : SearchState
  start : Option (List String)

/-- Source `searchText` with its traversal trace.  `rxEngine` models the
platform regex compiler: `rxEngine pattern` is the case-insensitive
matcher, or `none` when `new RegExp(pattern, "i")` throws. -/
def searchTextTrace (resolve : Resolver) (fs : Fs)
    (rxEngine : String → Option (String → Bool)) (fuel : Nat)
    (argument : String) : SearchOut :=
  let pattern := searchPatternOf argument
  if pattern = "" then ⟨"SearchText requires a pattern argument.", searchInit, none⟩
  else
    match resolve (searchStartArg argument) with
    | none => ⟨"Unable to resolve search path inside the workspace.", searchInit, none⟩
    | some resolvedPath =>
        let workspaceRoot := (resolve ".").getD resolvedPath
        let final := searchLoop fs (rxEngine pattern) (jsToLower pattern)
          workspaceRoot fuel [resolvedPath] [] searchInit
        ⟨(if final.results.isEmpty then "No results from SearchText."
          else truncateOutput ("\n".intercalate final.results)),
         final, some resolvedPath⟩

/-- Source `searchText`, output only. -/
def searchText (resolve : Resolver) (fs : Fs)
    (rxEngine : String → Option (String → Bool)) (fuel : Nat)
    (argument : String) : String :=
  (searchTextTrace resolve fs rxEngine fuel argument).output

/-! ## Plan-tool execution (source: `executePlanTools`, lines 387-437) -/

/-- One executed step, exactly the source's `PlanToolExecution` record
(`types.ts` lines 102-108). -/
structure PlanToolExecution where
  id : String
  tool : String
  argument : String
  output : String
  error : Option String
deriving DecidableEq

/-- One iteration of the exec loop (source lines 397-431): resolve
references in the argument, dispatch on the lowercased tool name, record
output and extend the variables table on success, record a per-step error
for an unrecognized tool.  The three executors return data and never
throw, so the source's `catch` branch is unreachable. -/
def execStep (resolve : Resolver) (fs : Fs) (emsg : List String → String)
    (rxEngine : String → Option (String → Bool)) (fuel : Nat)
    (vars : List (String × String)) (st : ParsedStep) :
    PlanToolExecution × List (String × String) :=
  let toolName := jsToLower (jsTrim st.toolRaw)
  let argTrim := jsTrim (replaceERefs vars st.rawArg)
  let base : PlanToolExecution :=
    ⟨"#E" ++ st.idStr, jsTrim st.toolRaw, argTrim, "", none⟩
  if toolName = "listfiles" then
    let o := listFiles resolve fs emsg argTrim
    ({ base with output := o }, (st.idStr, o) :: vars)
  else if toolName = "readfile" then
    let o := readFile resolve fs emsg argTrim
    ({ base with output := o }, (st.idStr, o) :: vars)
  else if toolName = "searchtext" then
    let o := searchText resolve fs rxEngine fuel argTrim
    ({ base with output := o }, (st.idStr, o) :: vars)
  else
    ({ base with error := some ("Unsupported tool: " ++ st.toolRaw) }, vars)

/-- The exec loop over the parsed steps, threading the variables table. -/
def execGo (resolve : Resolver) (fs : Fs) (emsg : List String → String)
    (rxEngine : String → Option (String → Bool)) (fuel : Nat) :
    List ParsedStep → List (String × String) →
    List PlanToolExecution × List (String × String)
  | [], vars => ([], vars)
  | st :: rest, vars =>
      let p := execStep resolve fs emsg rxEngine fuel vars st
      let q := execGo resolve fs emsg rxEngine fuel rest p.2
      (p.1 :: q.1, q.2)

/-- Source `executePlanTools`: parse the plan, then execute every step in
textual order with a fresh variables table. -/
def executePlanTools (resolve : Resolver) (fs : Fs) (emsg : List String → String)
    (rxEngine : String → Option (String → Bool)) (fuel : Nat)
    (plan : String) : List PlanToolExecution :=
  (execGo resolve fs emsg rxEngine fuel (parsePlanSteps plan) []).1

/-! ## Orchestrator decision parsing (source: lines 57-85)

`JSON.parse` is a platform builtin; its outcome is modelled as a parameter
`jsonParse` returning the parsed JSON value, or `none` when parsing throws.
Everything after that call is embedded from the source. -/

/-- JSON values as produced by `JSON.parse`. -/
inductive JsonVal where
  | jNull
  | jBool (b : Bool)
  | jNum (n : Int)
  | jStr (s : String)
  | jArr (items : List JsonVal)
  | jObj (fields : List (String × JsonVal))

/-- JS property access `v?.k` restricted to string-valued results
(`typeof v.k === "string"`); duplicate keys follow `JSON.parse`'s
last-occurrence-wins rule. -/
def jStrField (v : JsonVal) (k : String) : Option String :=
  match v with
  | JsonVal.jObj fields =>
      match List.lookup k fields.reverse with
      | some (JsonVal.jStr s) => some s
      | _ => none
  | _ => none

/-- Source `sanitizeJson` (lines 57-59): strip ```` ```json ````
case-insensitively, then every remaining ```` ``` ````, then trim. -/
def sanitizeJson (text : String) : String :=
  jsTrim (removeAllCI "```" (removeAllCI "```json" text))

/-- The decision action tag. -/
inductive DecisionAction where
  | clarify
  | proceed
deriving DecidableEq

/-- The source's `OrchestratorDecision` (lines 50-55). -/
structure OrchestratorDecision where
  action : DecisionAction
  question : Option String
  summary : Option String
  reasoning : Option String
deriving DecidableEq

/-- Decision plus whether the parse-failure warning was logged. -/
structure ParsedDecision where
  decision : OrchestratorDecision
  warned : Bool
deriving DecidableEq

/-- The decision derived from a successfully parsed JSON value (source
lines 65-78 and the shared fall-through at line 84). -/
def decideFromJson (parsed : JsonVal) (cleaned : String) : OrchestratorDecision :=
  if jStrField parsed "action" = some "clarify" ∧ (jStrField parsed "question").isSome then
    ⟨DecisionAction.clarify, (jStrField parsed "question").map jsTrim, none,
     jStrField parsed "reasoning"⟩
  else if jStrField parsed "action" = some "proceed" then
    ⟨DecisionAction.proceed, none, (jStrField parsed "summary").map jsTrim,
     jStrField parsed "reasoning"⟩
  else ⟨DecisionAction.proceed, none, some cleaned, none⟩

/-- Source `parseOrchestratorDecision` (lines 61-85).  The warning is
logged exactly when `JSON.parse` throws (the `catch` branch); a decoded
value that fits neither recognized shape falls through to the same
`proceed`-with-cleaned-text result without logging. -/
def parseOrchestratorDecision (jsonParse : String → Option JsonVal)
    (raw : String) : ParsedDecision :=
  let cleaned := sanitizeJson raw
  match jsonParse cleaned with
  | some parsed => ⟨decideFromJson parsed cleaned, false⟩
  | none => ⟨⟨DecisionAction.proceed, none, some cleaned, none⟩, true⟩

/-! ## Plan session state machine (source: `planModeChat`, lines 537-704;
`PlanSession` from `types.ts` lines 110-123) -/

/-- The six session statuses. -/
inductive PlanStatus where
  | orchestrating
  | awaiting_clarifications
  | planning
  | executing_tools
  | solving
  | completed
deriving DecidableEq

/-- One answered clarification. -/
structure PlanClarification where
  question : String
  answer : String
deriving DecidableEq

/-- One orchestrator-transcript message (role and content). -/
structure OrchMsg where
  role : String
  content : String
deriving DecidableEq

/-- The source's `PlanSession` record. -/
structure PlanSession where
  id : String
  createdAt : Nat
  task : String
  taskHistory : List String
  status : PlanStatus
  clarifications : List PlanClarification
  pendingClarification : Option String
  planMarkdown : Option String
  solverSummary : Option String
  toolExecutions : List PlanToolExecution
  planFilePath : Option String
  orchestratorMessages : List OrchMsg
deriving DecidableEq

/-- JS truthiness of a `string | undefined` value: present and nonempty.
This is the test the source applies to `session.pendingClarification`
(line 559) and to `decision.question` (line 607). -/
def strTruthy : Option String → Bool
  | none => false
  | some s => !(s == "")

/-- Modelled from the spec: `provider.startPlanSession` lives in the
view-provider module, which is not among the analyzed sources.  Spec
§4.1/§3: a new session starts in status `orchestrating`, `taskHistory`
seeded with the submitted task, no clarifications, no pending
clarification, and empty plan/tool/solver state. -/
def startPlanSession (freshId : String) (now : Nat) (task : String) : PlanSession :=
  ⟨freshId, now, task, [task], PlanStatus.orchestrating, [], none,
   none, none, [], none, []⟩

/-- Session resolution at the top of `planModeChat` (lines 554-557): reuse
the provider's session unless there is none or it is completed.  The
second component records whether the session is freshly created (the
source's `session !== provider.planSession` test). -/
def resolveSession (prev : Option PlanSession) (freshId : String) (now : Nat)
    (t : String) : PlanSession × Bool :=
  match prev with
  | none => (startPlanSession freshId now t, true)
  | some s =>
      if s.status = PlanStatus.completed then (startPlanSession freshId now t, true)
      else (s, false)

/-- The input-consumption step of `planModeChat` (lines 547-574): trim the
submitted question, resolve the session, then either consume the input as
the answer to a truthy pending clarification, leave a fresh session as
initialized, append to the task history while orchestrating or awaiting,
or start a new session in any other state. -/
def applyIncomingInput (prev : Option PlanSession) (freshId : String) (now : Nat)
    (question : String) : PlanSession :=
  let t := jsTrim question
  let sf := resolveSession prev freshId now t
  let s0 := sf.1
  if strTruthy s0.pendingClarification then
    { s0 with
        clarifications := s0.clarifications ++ [⟨s0.pendingClarification.getD "", t⟩],
        pendingClarification := none,
        status := PlanStatus.orchestrating }
  else if sf.2 then s0
  else if s0.status = PlanStatus.orchestrating then
    { s0 with taskHistory := s0.taskHistory ++ [t] }
  else if s0.status = PlanStatus.awaiting_clarifications then
    { s0 with taskHistory := s0.taskHistory ++ [t] }
  else startPlanSession freshId now t

/-- The final session of an advance together with every snapshot handed to
`provider.sendPlanSessionUpdate`, in emission order. -/
structure AdvanceOut where
  final : PlanSession
  published : List PlanSession

/-- The per-step snapshots published from inside `executePlanTools`
(line 433): after step `i`, the session carries the first `i + 1`
executions. -/
def prefixSnapshots (s : PlanSession) (execs : List PlanToolExecution) :
    List PlanSession :=
  (List.range execs.length).map (fun i => { s with toolExecutions := execs.take (i + 1) })

/-- The session after the input-consumption step and the push of the
user's message onto the orchestrator transcript (lines 547-580). -/
def sessionAfterInput (prev : Option PlanSession) (freshId : String) (now : Nat)
    (question : String) : PlanSession :=
  let s1 := applyIncomingInput prev freshId now question
  { s1 with orchestratorMessages :=
      s1.orchestratorMessages ++ [⟨"user", jsTrim question⟩] }

/-- One full advance of `planModeChat` (lines 537-704) under explicit
oracle inputs: `orchRaw`, `plannerRaw`, `solverRaw` are the drained texts
of the three model stages (`runModel` trims them, line 149), `persistLoc`
is the storage location reported by the persistence sink (spec §6), and
`prev` is `provider.planSession`.  Returns the final session and every
published snapshot in order.  The cancellation/abort path and fatal model
failures end the advance without further session mutation and are not
modelled. -/
def planModeAdvance (resolve : Resolver) (fs : Fs) (emsg : List String → String)
    (rxEngine : String → Option (String → Bool)) (fuel : Nat)
    (jsonParse : String → Option JsonVal)
    (prev : Option PlanSession) (freshId : String) (now : Nat)
    (question orchRaw plannerRaw solverRaw : String)
    (persistLoc : Option String) : AdvanceOut :=
  let s2 := sessionAfterInput prev freshId now question
  let decision := (parseOrchestratorDecision jsonParse (jsTrim orchRaw)).decision
  if decision.action = DecisionAction.clarify ∧ strTruthy decision.question then
    let q := decision.question.getD ""
    let s3 := { s2 with
        status := PlanStatus.awaiting_clarifications,
        pendingClarification := decision.question,
        orchestratorMessages := s2.orchestratorMessages ++ [⟨"assistant", q⟩] }
    ⟨s3, [s2, s3]⟩
  else
    let s3 := { s2 with status := PlanStatus.planning }
    let s4 := { s3 with planMarkdown := some (jsTrim plannerRaw) }
    let s5 := { s4 with status := PlanStatus.executing_tools }
    let execs := executePlanTools resolve fs emsg rxEngine fuel (jsTrim plannerRaw)
    let s6 := { s5 with toolExecutions := execs }
    let s7 := { s6 with status := PlanStatus.solving }
    let s8 := { s7 with solverSummary := some (jsTrim solverRaw), planFilePath := persistLoc }
    let s9 := { s8 with status := PlanStatus.completed }
    ⟨s9, [s2, s3, s4, s5] ++ prefixSnapshots s5 execs ++ [s6, s7, s9]⟩

/-- Whether `pendingClarification` is set, in the sense the source tests
it: present and nonempty (JS truthiness of a `string | undefined`). -/
def pendingSet (s : PlanSession) : Bool :=
  strTruthy s.pendingClarification

/-- The spec's invariant: `pendingClarification` is set if and only if
`status == awaiting_clarifications`. -/
def clarInv (s : PlanSession) : Prop :=
  pendingSet s = true ↔ s.status = PlanStatus.awaiting_clarifications

/-! ## Specification-side definitions and concrete instances

Derived definitions used to state the claims, and small concrete
workspaces, resolvers, and parser oracles used by the closed instances. -/

/-- The lines of a plan text that match the anchored step pattern, in
textual appearance order. -/
def matchedStepLines (plan : String) : List String :=
  (splitLines plan).filter (fun l => (matchStepLine l).isSome)

/-- The variables table in force when step `i` of a pass over `plan`
starts: the table left behind by executing the first `i` parsed steps. -/
def varsUpTo (resolve : Resolver) (fs : Fs) (emsg : List String → String)
    (rxEngine : String → Option (String → Bool)) (fuel : Nat)
    (plan : String) (i : Nat) : List (String × String) :=
  (execGo resolve fs emsg rxEngine fuel ((parsePlanSteps plan).take i) []).2

/-- Specification-side reading of "split on the first `|`": the text
before the first bar. -/
def beforeFirstBar (s : String) : String :=
  String.mk (s.data.takeWhile (fun c => !(c == '|')))

/-- Specification-side second segment: the text strictly between the
first and the second `|`, when a first `|` exists. -/
def secondSegment (s : String) : Option String :=
  match s.data.dropWhile (fun c => !(c == '|')) with
  | [] => none
  | _ :: rest => some (String.mk (rest.takeWhile (fun c => !(c == '|'))))

/-- A concrete workspace resolver for closed instances: the workspace root
is the empty path, and an argument is split on `/` with empty and `.`
components dropped (so `resolveStd "." = some []`, the root). -/
def splitPath (s : String) : List String :=
  (splitSep '/' s).filter (fun c => !(c == "") && !(c == "."))

/-- The standard resolver used in closed instances. -/
def resolveStd : Resolver := fun s => some (splitPath s)

/-- A fixed platform error message for closed instances. -/
def emsgStd : List String → String := fun _ => "ENOENT"

/-- A regex engine that always fails to compile, forcing the documented
substring fallback (the behavior of `new RegExp(p, "i")` on patterns such
as an unbalanced parenthesis). -/
def rxNone : String → Option (String → Bool) := fun _ => none

/-- A concrete workspace holding one empty directory `d` at the root. -/
def fsDirD : Fs := fun p =>
  if p = [] then some (FsEntry.dir ["d"])
  else if p = ["d"] then some (FsEntry.dir [])
  else none

/-- A concrete workspace with a single file `f` whose content is the
literal text `#E1`. -/
def fsRefFile : Fs := fun p =>
  if p = [] then some (FsEntry.dir ["f"])
  else if p = ["f"] then some (FsEntry.file 4 (some "#E1"))
  else none

/-- A concrete workspace with one small matching file and one oversized
file. -/
def fsSearch : Fs := fun p =>
  if p = [] then some (FsEntry.dir ["a.txt", "big.txt"])
  else if p = ["a.txt"] then some (FsEntry.file 5 (some "hello"))
  else if p = ["big.txt"] then some (FsEntry.file 300000 (some "hello"))
  else none

/-- A concrete workspace with a regular file named `dist` beside an
ordinary file. -/
def fsSkipNames : Fs := fun p =>
  if p = [] then some (FsEntry.dir ["dist", "src.txt"])
  else if p = ["dist"] then some (FsEntry.file 3 (some "hey"))
  else if p = ["src.txt"] then some (FsEntry.file 3 (some "hey"))
  else none

/-- `JSON.parse` on the object text used in the C6 instance: any correct
JSON parser maps this input to an object whose single field `action`
holds the string `"clarify"`. -/
def jsonParseCl : String → Option JsonVal := fun s =>
  if s = "\x7b\"action\":\"clarify\"\x7d" then
    some (JsonVal.jObj [("action", JsonVal.jStr "clarify")])
  else none

/-- A concrete session awaiting a clarification answer. -/
def sessionAwait : PlanSession :=
  ⟨"s1", 0, "task", ["task"], PlanStatus.awaiting_clarifications, [],
   some "Which file should be tested?", none, none, [], none, []⟩

end PlanMode

example : PlanMode.matchStepLine "#E1 = ListFiles[.]" =
    some ⟨"1", "ListFiles", "."⟩ := by decide
example : PlanMode.matchStepLine "#E12= Search_Text[a | b]  " =
    some ⟨"12", "Search_Text", "a | b"⟩ := by decide
example : PlanMode.matchStepLine "#E1 = T[x] ] " = some ⟨"1", "T", "x] "⟩ := by decide
example : PlanMode.matchStepLine "Plan: do things" = none := by decide
example : PlanMode.matchStepLine "#E = T[x]" = none := by decide
example : PlanMode.matchStepLine "#E1 = T[x] y" = none := by decide
example : PlanMode.parsePlanSteps "Plan: a\n#E2 = B[z]\nPlan: b\n#E1 = A[w]" =
    [⟨"2", "B", "z"⟩, ⟨"1", "A", "w"⟩] := by decide
example : PlanMode.replaceERefs [("1", "out1")] "x #E1 y #E2 z" = "x out1 y #E2 z" := by
  decide
example : PlanMode.replaceERefs [("1", "v")] "#E12" = "#E12" := by decide

example : PlanMode.jsTrim "  a b \n" = "a b" := by decide

namespace PlanMode

/-! ## Claim theorems -/

theorem strData_append (a b : String) : (a ++ b).data = a.data ++ b.data := by
  cases a
  cases b
  rfl

theorem joinL_map_lit (l : List Char) (vars : List (String × String)) :
    joinL (l.map (fun c => renderTok vars (PTok.lit c))) = l := by
  induction l with
  | nil => rfl
  | cons c cs ih =>
      simp only [List.map_cons, joinL, renderTok] at ih ⊢
      rw [ih]
      rfl

theorem replaceERefsFuel_eq_render (vars : List (String × String)) :
    ∀ fuel l, replaceERefsFuel vars fuel l =
      joinL ((tokenizeFuel fuel l).map (renderTok vars)) := by
  intro fuel
  induction fuel with
  | zero =>
      intro l
      simp only [replaceERefsFuel, tokenizeFuel, List.map_map]
      exact (joinL_map_lit l vars).symm
  | succ n ih =>
      intro l
      match l with
      | [] => rfl
      | [c] => rfl
      | c1 :: c2 :: rest =>
          simp only [replaceERefsFuel, tokenizeFuel]
          by_cases hE : c1 = '#' ∧ c2 = 'E'
          · simp only [if_pos hE]
            by_cases h : (spanDigits rest).1 = []
            · simp only [h, if_pos rfl, List.map_cons, joinL, ih rest]
              rfl
            · simp only [if_neg h, List.map_cons, joinL, ih (spanDigits rest).2]
              cases hv : lookupVar vars (String.mk (spanDigits rest).1) <;>
                simp [renderTok, hv]
          · simp only [if_neg hE, List.map_cons, joinL, ih (c2 :: rest)]
            rfl

/-- C3: `truncateOutput` — applied to every read-file and search-text
result — returns strings of at most 2000 characters unchanged; a longer
input yields exactly its first 2000 characters followed by the
truncation-notice suffix reporting the number of dropped characters, so
the output length is 2000 plus the suffix length and the retained prefix
is exactly the original first 2000 characters. -/
theorem C3_truncation_law (s : String) :
    (s.data.length ≤ 2000 → truncateOutput s = s) ∧
    (2000 < s.data.length →
      truncateOutput s =
        String.mk (s.data.take 2000) ++ truncNotice (s.data.length - 2000) ∧
      (truncateOutput s).data.length =
        2000 + (truncNotice (s.data.length - 2000)).data.length ∧
      (truncateOutput s).data.take 2000 = s.data.take 2000) := by
  constructor
  · intro h
    unfold truncateOutput
    rw [if_pos (show s.data.length ≤ MAX_TOOL_OUTPUT from h)]
  · intro h
    have hn : ¬ s.data.length ≤ MAX_TOOL_OUTPUT := by
      show ¬ s.data.length ≤ 2000
      omega
    have heq : truncateOutput s =
        String.mk (s.data.take 2000) ++ truncNotice (s.data.length - 2000) := by
      unfold truncateOutput
      rw [if_neg hn]
      rfl
    refine ⟨heq, ?_, ?_⟩
    · rw [heq, strData_append]
      show (s.data.take 2000 ++ (truncNotice (s.data.length - 2000)).data).length = _
      rw [List.length_append, List.length_take, Nat.min_eq_left (by omega)]
    · rw [heq, strData_append]
      show (s.data.take 2000 ++ (truncNotice (s.data.length - 2000)).data).take 2000 =
        s.data.take 2000
      rw [List.take_append_of_le_length (by rw [List.length_take]; omega),
        List.take_take, Nat.min_self]

/-- Witness for C3 at a 2001-character input and a short input. -/
theorem C3_truncation_law_witness :
    truncateOutput (String.mk (List.replicate 2001 'a')) =
      String.mk (List.replicate 2000 'a') ++ truncNotice 1 ∧
    truncateOutput "abc" = "abc" := by
  constructor
  · have hlen : (String.mk (List.replicate 2001 'a')).data.length = 2001 := by
      show (List.replicate 2001 'a').length = 2001
      rw [List.length_replicate]
    have h := (C3_truncation_law (String.mk (List.replicate 2001 'a'))).2
      (by rw [hlen]; omega)
    have h1 := h.1
    rw [hlen] at h1
    have hdata : (String.mk (List.replicate 2001 'a')).data = List.replicate 2001 'a' := rfl
    rw [hdata, List.take_replicate] at h1
    norm_num at h1
    exact h1
  · exact (C3_truncation_law "abc").1 (by decide)

/-! ### C9: search-text argument splitting -/

theorem splitPredGo_ne_nil (p : Char → Bool) (l : List Char) :
    splitPredGo p l ≠ [] := by
  cases l with
  | nil => simp [splitPredGo]
  | cons c cs =>
      simp only [splitPredGo]
      match h : splitPredGo p cs with
      | [] => simp
      | seg :: rest =>
          by_cases hp : p c <;> simp [hp]

theorem splitPredGo_head (p : Char → Bool) (l : List Char) :
    (splitPredGo p l).head? = some (l.takeWhile (fun c => !(p c))) := by
  induction l with
  | nil => rfl
  | cons c cs ih =>
      obtain ⟨seg, rest, hsp⟩ : ∃ seg rest, splitPredGo p cs = seg :: rest := by
        match hsp : splitPredGo p cs with
        | [] => exact absurd hsp (splitPredGo_ne_nil p cs)
        | a :: b => exact ⟨a, b, rfl⟩
      have hunf : splitPredGo p (c :: cs) =
          if p c then [] :: seg :: rest else (c :: seg) :: rest := by
        simp only [splitPredGo, hsp]
      rw [hsp] at ih
      rw [hunf]
      by_cases hp : p c
      · rw [if_pos hp]
        simp [List.takeWhile_cons, hp]
      · rw [if_neg hp]
        simp only [List.head?, Option.some.injEq] at ih
        simp [List.takeWhile_cons, hp, ih]

theorem splitPredGo_second (p : Char → Bool) (l : List Char) :
    (splitPredGo p l).get? 1 =
      (match l.dropWhile (fun c => !(p c)) with
       | [] => none
       | _ :: rest => some (rest.takeWhile (fun c => !(p c)))) := by
  induction l with
  | nil => rfl
  | cons c cs ih =>
      obtain ⟨seg, rest, hsp⟩ : ∃ seg rest, splitPredGo p cs = seg :: rest := by
        match hsp : splitPredGo p cs with
        | [] => exact absurd hsp (splitPredGo_ne_nil p cs)
        | a :: b => exact ⟨a, b, rfl⟩
      have hunf : splitPredGo p (c :: cs) =
          if p c then [] :: seg :: rest else (c :: seg) :: rest := by
        simp only [splitPredGo, hsp]
      rw [hunf]
      by_cases hp : p c
      · rw [if_pos hp]
        have hh := splitPredGo_head p cs
        rw [hsp] at hh
        simp only [List.head?, Option.some.injEq] at hh
        simp [List.dropWhile_cons, hp, hh]
      · rw [if_neg hp]
        rw [hsp] at ih
        simp only [List.dropWhile_cons, hp]
        simpa using ih

/-- C9 fails on the code: `argument.split("|")` splits at every bar and the
destructuring keeps only the first two segments, so for
`"foo|bar|baz"` the path handed to the resolver is `"bar"`, not the
remainder `"bar|baz"` claimed by the spec. -/
theorem C9_counterexample :
    searchRawPathOf "foo|bar|baz" = some "bar" ∧
    ¬ searchRawPathOf "foo|bar|baz" = some "bar|baz" ∧
    (searchTextTrace resolveStd (fun _ => none) rxNone 1 "foo|bar|baz").start =
      some ["bar"] := by
  refine ⟨by decide, by decide, by decide⟩

/-- C9 amended: the pattern is the trimmed text before the first `|`; the
path is the trimmed text strictly between the first and the second `|`
(any further `|`-separated segments are ignored); a missing or empty path
part makes the search start at `"."`, the workspace root. -/
theorem C9_amended (a : String) :
    searchPatternOf a = jsTrim (beforeFirstBar a) ∧
    searchRawPathOf a = (secondSegment a).map jsTrim ∧
    ((searchRawPathOf a).getD "" = "" → searchStartArg a = ".") := by
  obtain ⟨seg, rest, hsp⟩ :
      ∃ seg rest, splitPredGo (fun c => c == '|') a.data = seg :: rest := by
    match hsp : splitPredGo (fun c => c == '|') a.data with
    | [] => exact absurd hsp (splitPredGo_ne_nil _ a.data)
    | x :: y => exact ⟨x, y, rfl⟩
  refine ⟨?_, ?_, ?_⟩
  · have hseg : seg = a.data.takeWhile (fun c => !(c == '|')) := by
      have h1 := splitPredGo_head (fun c => c == '|') a.data
      rw [hsp] at h1
      simpa using h1
    show (((splitPredGo (fun c => c == '|') a.data).map String.mk).map jsTrim).headD ""
      = jsTrim (beforeFirstBar a)
    rw [hsp]
    simp [beforeFirstBar, hseg]
  · have h2 := splitPredGo_second (fun c => c == '|') a.data
    show (((splitPredGo (fun c => c == '|') a.data).map String.mk).map jsTrim).get? 1
      = (secondSegment a).map jsTrim
    rw [List.get?_map, List.get?_map, h2]
    unfold secondSegment
    match hd : a.data.dropWhile (fun c => !(c == '|')) with
    | [] => rfl
    | x :: rest2 => rfl
  · intro h0
    unfold searchStartArg
    match hr : searchRawPathOf a with
    | none => rfl
    | some p =>
        rw [hr] at h0
        simp only [Option.getD] at h0
        simp [h0]

/-- Witness for C9 amended at the pathless argument `"foo"`. -/
theorem C9_amended_witness :
    searchPatternOf "foo" = jsTrim (beforeFirstBar "foo") ∧
    searchStartArg "foo" = "." :=
  ⟨(C9_amended "foo").1, (C9_amended "foo").2.2 (by decide)⟩

/-! ### C6: orchestrator decision parsing -/

/-- C6 fails on the code in its logging clause: for a decoded action that
is recognized but malformed — `action:"clarify"` without a string
`question` — the parser does fall back to `proceed` with the cleaned text
as summary, but no parse-failure warning is logged (`warned = false`);
the warning is emitted only when `JSON.parse` throws. -/
theorem C6_counterexample :
    parseOrchestratorDecision jsonParseCl "\x7b\"action\":\"clarify\"\x7d" =
      ⟨⟨DecisionAction.proceed, none, some "\x7b\"action\":\"clarify\"\x7d", none⟩,
        false⟩ := by
  decide

/-- C6 amended: decision parsing is total and never throws; when strict
decoding fails the result is `proceed` with the cleaned text as summary
and the failure is logged as a warning; when the decoded action is
recognized but malformed (`clarify` without a string question) the result
is the same fallback but no warning is logged; a successful decode never
logs a warning. -/
theorem C6_amended (jsonParse : String → Option JsonVal) (raw : String) :
    (jsonParse (sanitizeJson raw) = none →
      parseOrchestratorDecision jsonParse raw =
        ⟨⟨DecisionAction.proceed, none, some (sanitizeJson raw), none⟩, true⟩) ∧
    (∀ v, jsonParse (sanitizeJson raw) = some v →
      jStrField v "action" = some "clarify" →
      (jStrField v "question").isSome = false →
      parseOrchestratorDecision jsonParse raw =
        ⟨⟨DecisionAction.proceed, none, some (sanitizeJson raw), none⟩, false⟩) ∧
    (∀ v, jsonParse (sanitizeJson raw) = some v →
      (parseOrchestratorDecision jsonParse raw).warned = false) := by
  refine ⟨?_, ?_, ?_⟩
  · intro h
    simp only [parseOrchestratorDecision]
    rw [h]
  · intro v hv ha hq
    simp only [parseOrchestratorDecision]
    rw [hv]
    show ParsedDecision.mk (decideFromJson v (sanitizeJson raw)) false = _
    unfold decideFromJson
    rw [if_neg (by simp [hq]), if_neg (by simp [ha])]
  · intro v hv
    simp only [parseOrchestratorDecision]
    rw [hv]

/-- Witness for C6 amended: a throwing parse falls back with a warning,
and a well-formed-JSON-but-malformed-clarify decode falls back silently. -/
theorem C6_amended_witness :
    parseOrchestratorDecision (fun _ => none) "hello" =
      ⟨⟨DecisionAction.proceed, none, some (sanitizeJson "hello"), none⟩, true⟩ ∧
    parseOrchestratorDecision jsonParseCl "\x7b\"action\":\"clarify\"\x7d" =
      ⟨⟨DecisionAction.proceed, none,
        some (sanitizeJson "\x7b\"action\":\"clarify\"\x7d"), none⟩, false⟩ :=
  ⟨(C6_amended (fun _ => none) "hello").1 rfl,
   (C6_amended jsonParseCl "\x7b\"action\":\"clarify\"\x7d").2.1
     (JsonVal.jObj [("action", JsonVal.jStr "clarify")]) rfl (by decide) (by decide)⟩

/-! ### C8: answering a pending clarification -/

/-- C8 fails on the code in its appended-pair clause: the submitted input
is trimmed before being stored, so for the input `" yes "` the appended
answer is `"yes"`, not the submitted text.  Status and
`pendingClarification` behave as claimed. -/
theorem C8_counterexample :
    (applyIncomingInput (some sessionAwait) "s2" 1 " yes ").status =
      PlanStatus.orchestrating ∧
    (applyIncomingInput (some sessionAwait) "s2" 1 " yes ").pendingClarification =
      none ∧
    (applyIncomingInput (some sessionAwait) "s2" 1 " yes ").clarifications =
      [⟨"Which file should be tested?", "yes"⟩] ∧
    ¬ (applyIncomingInput (some sessionAwait) "s2" 1 " yes ").clarifications =
      sessionAwait.clarifications ++ [⟨"Which file should be tested?", " yes "⟩] := by
  decide

/-- C8 amended: from `awaiting_clarifications` with a (nonempty) pending
question, submitting any input yields status `orchestrating`,
`pendingClarification` cleared, and `clarifications` extended by exactly
the pair of the pending question and the trimmed submitted input. -/
theorem C8_amended (s : PlanSession) (q input freshId : String) (now : Nat)
    (hs : s.status = PlanStatus.awaiting_clarifications)
    (hp : s.pendingClarification = some q) (hq : ¬ q = "") :
    (applyIncomingInput (some s) freshId now input).status =
      PlanStatus.orchestrating ∧
    (applyIncomingInput (some s) freshId now input).pendingClarification = none ∧
    (applyIncomingInput (some s) freshId now input).clarifications =
      s.clarifications ++ [⟨q, jsTrim input⟩] := by
  have hres : resolveSession (some s) freshId now (jsTrim input) = (s, false) := by
    simp only [resolveSession]
    rw [hs]
    simp
  have htr : strTruthy (some q) = true := by
    simp [strTruthy, hq]
  simp [applyIncomingInput, hres, htr, hp]

/-- Witness for C8 amended at a concrete awaiting session. -/
theorem C8_amended_witness :
    (applyIncomingInput (some sessionAwait) "s2" 1 "parser.go").clarifications =
      sessionAwait.clarifications ++ [⟨"Which file should be tested?", jsTrim "parser.go"⟩] :=
  (C8_amended sessionAwait "Which file should be tested?" "parser.go" "s2" 1
    rfl rfl (by decide)).2.2

/-! ### C2: order-preserving parsing -/

theorem execStep_id_tool (resolve : Resolver) (fs : Fs) (emsg : List String → String)
    (rxEngine : String → Option (String → Bool)) (fuel : Nat)
    (vars : List (String × String)) (st : ParsedStep) :
    ((execStep resolve fs emsg rxEngine fuel vars st).1).id = "#E" ++ st.idStr ∧
    ((execStep resolve fs emsg rxEngine fuel vars st).1).tool = jsTrim st.toolRaw := by
  simp only [execStep]
  split
  · exact ⟨rfl, rfl⟩
  · split
    · exact ⟨rfl, rfl⟩
    · split
      · exact ⟨rfl, rfl⟩
      · exact ⟨rfl, rfl⟩

theorem execGo_map_id_tool (resolve : Resolver) (fs : Fs) (emsg : List String → String)
    (rxEngine : String → Option (String → Bool)) (fuel : Nat) :
    ∀ (l : List ParsedStep) (vars : List (String × String)),
      ((execGo resolve fs emsg rxEngine fuel l vars).1).map (fun e => (e.id, e.tool)) =
        l.map (fun st => ("#E" ++ st.idStr, jsTrim st.toolRaw)) := by
  intro l
  induction l with
  | nil => intro vars; rfl
  | cons st rest ih =>
      intro vars
      have h := execStep_id_tool resolve fs emsg rxEngine fuel vars st
      simp only [execGo, List.map_cons, ih]
      rw [h.1, h.2]

theorem filterMap_corr {α β γ : Type} (f : α → Option β) (g : β → γ) (d : α → γ)
    (hd : ∀ a b, f a = some b → d a = g b) :
    ∀ l : List α, (l.filterMap f).map g = (l.filter (fun a => (f a).isSome)).map d := by
  intro l
  induction l with
  | nil => rfl
  | cons a t ih =>
      match hfa : f a with
      | some b =>
          simp [List.filterMap_cons, hfa, List.filter_cons, ih, hd a b hfa]
      | none =>
          simp [List.filterMap_cons, hfa, List.filter_cons, ih]

/-- C2: the execution records of one pass correspond one-to-one, in order,
with the plan's lines matching the anchored step pattern, taken in textual
appearance order (hence regardless of the numeric order of the step
indices): the i-th record is built from the i-th matching line, carrying
its step id and tool name. -/
theorem C2_executions_match_lines (resolve : Resolver) (fs : Fs)
    (emsg : List String → String) (rxEngine : String → Option (String → Bool))
    (fuel : Nat) (plan : String) :
    (executePlanTools resolve fs emsg rxEngine fuel plan).length =
      (matchedStepLines plan).length ∧
    (executePlanTools resolve fs emsg rxEngine fuel plan).map (fun e => (e.id, e.tool)) =
      (matchedStepLines plan).map (fun line =>
        match matchStepLine line with
        | some st => ("#E" ++ st.idStr, jsTrim st.toolRaw)
        | none => ("", "")) := by
  have hmap : (executePlanTools resolve fs emsg rxEngine fuel plan).map
      (fun e => (e.id, e.tool)) =
      (matchedStepLines plan).map (fun line =>
        match matchStepLine line with
        | some st => ("#E" ++ st.idStr, jsTrim st.toolRaw)
        | none => ("", "")) := by
    unfold executePlanTools matchedStepLines parsePlanSteps
    rw [execGo_map_id_tool]
    exact filterMap_corr matchStepLine _ _ (fun a b hab => by rw [hab]) (splitLines plan)
  refine ⟨?_, hmap⟩
  have := congrArg List.length hmap
  simpa using this

/-! ### C5: per-step failure handling -/

theorem execGo_length (resolve : Resolver) (fs : Fs) (emsg : List String → String)
    (rxEngine : String → Option (String → Bool)) (fuel : Nat) :
    ∀ (l : List ParsedStep) (vars : List (String × String)),
      ((execGo resolve fs emsg rxEngine fuel l vars).1).length = l.length := by
  intro l
  induction l with
  | nil => intro vars; rfl
  | cons st rest ih =>
      intro vars
      simp only [execGo, List.length_cons, ih]

theorem execGo_get (resolve : Resolver) (fs : Fs) (emsg : List String → String)
    (rxEngine : String → Option (String → Bool)) (fuel : Nat) :
    ∀ (l : List ParsedStep) (vars : List (String × String)) (i : Nat),
      ((execGo resolve fs emsg rxEngine fuel l vars).1).get? i =
        (l.get? i).map (fun st =>
          (execStep resolve fs emsg rxEngine fuel
            ((execGo resolve fs emsg rxEngine fuel (l.take i) vars).2) st).1) := by
  intro l
  induction l with
  | nil => intro vars i; simp [execGo]
  | cons st rest ih =>
      intro vars i
      match i with
      | 0 => simp [execGo]
      | i + 1 =>
          show ((execGo resolve fs emsg rxEngine fuel rest
              (execStep resolve fs emsg rxEngine fuel vars st).2).1).get? i = _
          rw [ih (execStep resolve fs emsg rxEngine fuel vars st).2 i]
          rfl

theorem execStep_error_class (resolve : Resolver) (fs : Fs)
    (emsg : List String → String) (rxEngine : String → Option (String → Bool))
    (fuel : Nat) (vars : List (String × String)) (st : ParsedStep) :
    ((jsToLower (jsTrim st.toolRaw) = "listfiles" ∨
      jsToLower (jsTrim st.toolRaw) = "readfile" ∨
      jsToLower (jsTrim st.toolRaw) = "searchtext") →
      ((execStep resolve fs emsg rxEngine fuel vars st).1).error = none) ∧
    (¬ (jsToLower (jsTrim st.toolRaw) = "listfiles" ∨
        jsToLower (jsTrim st.toolRaw) = "readfile" ∨
        jsToLower (jsTrim st.toolRaw) = "searchtext") →
      ((execStep resolve fs emsg rxEngine fuel vars st).1).error =
        some ("Unsupported tool: " ++ st.toolRaw)) := by
  constructor
  · intro h
    simp only [execStep]
    rcases h with h | h | h <;> simp [h]
  · intro h
    push_neg at h
    simp only [execStep]
    rw [if_neg h.1, if_neg h.2.1, if_neg h.2.2]

/-- C5 fails on the code for its error-field clause: a directory passed to
read-file (and every other executor-internal failure) is reported as a
result string stored in the step's `output`, while `error` stays unset;
only the unsupported-tool case populates `error`.  Subsequent steps still
run, and the unsupported-tool message is exactly as claimed. -/
theorem C5_counterexample :
    (executePlanTools resolveStd fsDirD emsgStd rxNone 5
        "#E1 = ReadFile[d]\n#E2 = Foo[x]").map (fun e => (e.output, e.error)) =
      [("ReadFile error: target is a directory.", none),
       ("", some "Unsupported tool: Foo")] := by
  decide

/-- C5 amended: every parsed step is attempted (one execution record per
step, in order); a step naming one of the three supported tools finishes
with `error = none` — executor-internal failures, including a directory
passed to read-file, become result strings in `output` — while an
unrecognized tool name yields exactly the per-step error
`"Unsupported tool: <name>"` without aborting subsequent steps. -/
theorem C5_amended (resolve : Resolver) (fs : Fs) (emsg : List String → String)
    (rxEngine : String → Option (String → Bool)) (fuel : Nat) (plan : String) :
    (executePlanTools resolve fs emsg rxEngine fuel plan).length =
      (parsePlanSteps plan).length ∧
    (∀ i st, (parsePlanSteps plan).get? i = some st →
      ∃ e, (executePlanTools resolve fs emsg rxEngine fuel plan).get? i = some e ∧
        ((jsToLower (jsTrim st.toolRaw) = "listfiles" ∨
          jsToLower (jsTrim st.toolRaw) = "readfile" ∨
          jsToLower (jsTrim st.toolRaw) = "searchtext") → e.error = none) ∧
        (¬ (jsToLower (jsTrim st.toolRaw) = "listfiles" ∨
            jsToLower (jsTrim st.toolRaw) = "readfile" ∨
            jsToLower (jsTrim st.toolRaw) = "searchtext") →
          e.error = some ("Unsupported tool: " ++ st.toolRaw))) ∧
    (∀ argument p entries, resolve argument = some p →
      fs p = some (FsEntry.dir entries) →
      readFile resolve fs emsg argument = "ReadFile error: target is a directory.") := by
  refine ⟨execGo_length resolve fs emsg rxEngine fuel (parsePlanSteps plan) [], ?_, ?_⟩
  · intro i st hst
    have hg := execGo_get resolve fs emsg rxEngine fuel (parsePlanSteps plan) [] i
    rw [hst] at hg
    refine ⟨_, hg, ?_, ?_⟩
    · exact (execStep_error_class resolve fs emsg rxEngine fuel _ st).1
    · exact (execStep_error_class resolve fs emsg rxEngine fuel _ st).2
  · intro argument p entries hr hf
    unfold readFile
    rw [hr]
    show (match fs p with
      | none => "ReadFile error: " ++ emsg p
      | some (FsEntry.dir _) => "ReadFile error: target is a directory."
      | some (FsEntry.file _ none) => "ReadFile error: " ++ emsg p
      | some (FsEntry.file _ (some data)) => truncateOutput data) =
        "ReadFile error: target is a directory."
    rw [hf]

/-! ### C1: reference substitution -/

theorem execStep_argument (resolve : Resolver) (fs : Fs)
    (emsg : List String → String) (rxEngine : String → Option (String → Bool))
    (fuel : Nat) (vars : List (String × String)) (st : ParsedStep) :
    ((execStep resolve fs emsg rxEngine fuel vars st).1).argument =
      jsTrim (replaceERefs vars st.rawArg) := by
  simp only [execStep]
  split
  · rfl
  · split
    · rfl
    · split
      · rfl
      · rfl

/-- C1 fails on the code in its never-contains clause: the replace scan is
a single pass whose substituted text is emitted verbatim, so when a
successfully executed step's output itself contains the text `#E1` (here:
the content of file `f`), a later argument referencing `#E1` resolves to
text that still contains the literal token `#E1`.  Step 1 executed
successfully (`error = none`, output recorded), yet step 2's resolved
argument is exactly the token `#E1`. -/
theorem C1_counterexample :
    (executePlanTools resolveStd fsRefFile emsgStd rxNone 5
        "#E1 = ReadFile[f]\n#E2 = ReadFile[#E1]").map
        (fun e => (e.argument, e.output, e.error)) =
      [("f", "#E1", none), ("#E1", "ReadFile error: ENOENT", none)] ∧
    hasERefToken "#E1" "1" = true := by
  decide

/-- C1 amended: argument resolution is the single-pass token rendering
`renderRefs`: every occurrence of a token `#E<k>` in the raw argument is
replaced by the table entry for `k` — the output of the most recent
earlier step with id `k` that executed without error — and kept as the
literal token when no entry exists (forward references and references to
errored steps); substituted outputs are emitted verbatim, so the resolved
argument may still contain token text originating from an output.  The
table gains an entry exactly when a step finishes without error. -/
theorem C1_amended :
    (∀ vars s, replaceERefs vars s = renderRefs vars s) ∧
    (∀ resolve fs emsg rxEngine fuel plan i st,
      (parsePlanSteps plan).get? i = some st →
      ∃ e, (executePlanTools resolve fs emsg rxEngine fuel plan).get? i = some e ∧
        e.argument = jsTrim (renderRefs
          (varsUpTo resolve fs emsg rxEngine fuel plan i) st.rawArg)) ∧
    (∀ resolve fs emsg rxEngine fuel vars st,
      ((execStep resolve fs emsg rxEngine fuel vars st).1).error = none →
      (execStep resolve fs emsg rxEngine fuel vars st).2 =
        (st.idStr, ((execStep resolve fs emsg rxEngine fuel vars st).1).output) :: vars) ∧
    (∀ resolve fs emsg rxEngine fuel vars st,
      ¬ ((execStep resolve fs emsg rxEngine fuel vars st).1).error = none →
      (execStep resolve fs emsg rxEngine fuel vars st).2 = vars) := by
  have hrr : ∀ vars s, replaceERefs vars s = renderRefs vars s := by
    intro vars s
    unfold replaceERefs renderRefs tokenizeRefs
    rw [replaceERefsFuel_eq_render]
  refine ⟨hrr, ?_, ?_, ?_⟩
  · intro resolve fs emsg rxEngine fuel plan i st hst
    have hg := execGo_get resolve fs emsg rxEngine fuel (parsePlanSteps plan) [] i
    rw [hst] at hg
    refine ⟨_, hg, ?_⟩
    rw [execStep_argument, hrr]
    rfl
  · intro resolve fs emsg rxEngine fuel vars st h
    revert h
    simp only [execStep]
    split
    · intro _; rfl
    · split
      · intro _; rfl
      · split
        · intro _; rfl
        · intro h; exact Option.noConfusion h
  · intro resolve fs emsg rxEngine fuel vars st h
    revert h
    simp only [execStep]
    split
    · intro h; exact absurd rfl h
    · split
      · intro h; exact absurd rfl h
      · split
        · intro h; exact absurd rfl h
        · intro _; rfl

/-- Witness for C1 amended at the two-step plan of the instance above. -/
theorem C1_amended_witness :
    ∃ e, (executePlanTools resolveStd fsRefFile emsgStd rxNone 5
        "#E1 = ReadFile[f]\n#E2 = ReadFile[#E1]").get? 1 = some e ∧
      e.argument = jsTrim (renderRefs (varsUpTo resolveStd fsRefFile emsgStd rxNone 5
        "#E1 = ReadFile[f]\n#E2 = ReadFile[#E1]" 1) "#E1") :=
  C1_amended.2.1 resolveStd fsRefFile emsgStd rxNone 5
    "#E1 = ReadFile[f]\n#E2 = ReadFile[#E1]" 1 ⟨"2", "ReadFile", "#E1"⟩ (by decide)

/-- Witness for C5 amended: a plan whose second step names the
unsupported tool `Foo`. -/
theorem C5_amended_witness :
    ∃ e, (executePlanTools resolveStd fsDirD emsgStd rxNone 5
        "#E1 = ReadFile[d]\n#E2 = Foo[x]").get? 1 = some e ∧
      e.error = some "Unsupported tool: Foo" := by
  obtain ⟨e, he, _, hbad⟩ :=
    (C5_amended resolveStd fsDirD emsgStd rxNone 5
      "#E1 = ReadFile[d]\n#E2 = Foo[x]").2.1 1 ⟨"2", "Foo", "x"⟩ (by decide)
  exact ⟨e, he, hbad (by decide)⟩

/-! ### C4: search-text resource bounds -/

theorem addMatches_le (m : String → Bool) (rel : String) :
    ∀ (lines : List String) (idx : Nat) (results : List String),
      results.length ≤ 40 → (addMatches m rel lines idx results).length ≤ 40 := by
  intro lines
  induction lines with
  | nil => intro idx results h; exact h
  | cons line rest ih =>
      intro idx results h
      simp only [addMatches]
      split
      · next hlt =>
          apply ih
          split
          · rw [List.length_append]
            simp only [List.length_singleton]
            omega
          · exact h
      · exact h

/-- The loop invariant behind C4: result count, scan count, the
opened-files trace, and the per-file size guard. -/
theorem searchLoop_bounds (fs : Fs) (rx : Option (String → Bool))
    (lowerPattern : String) (root : List String) :
    ∀ (fuel : Nat) (queue visited : List (List String)) (st : SearchState),
      st.results.length ≤ 40 → st.scanned ≤ 120 → st.opened.length ≤ st.scanned →
      (∀ p ∈ st.opened, ∃ sz c, fs p = some (FsEntry.file sz c) ∧ sz ≤ 200000) →
      ((searchLoop fs rx lowerPattern root fuel queue visited st).results.length ≤ 40 ∧
       (searchLoop fs rx lowerPattern root fuel queue visited st).scanned ≤ 120 ∧
       (searchLoop fs rx lowerPattern root fuel queue visited st).opened.length ≤
         (searchLoop fs rx lowerPattern root fuel queue visited st).scanned ∧
       (∀ p ∈ (searchLoop fs rx lowerPattern root fuel queue visited st).opened,
         ∃ sz c, fs p = some (FsEntry.file sz c) ∧ sz ≤ 200000)) := by
  intro fuel
  induction fuel with
  | zero =>
      intro queue visited st h1 h2 h3 h4
      exact ⟨h1, h2, h3, h4⟩
  | succ n ih =>
      intro queue visited st h1 h2 h3 h4
      cases queue with
      | nil =>
          simp only [searchLoop]
          split
          · exact ⟨h1, h2, h3, h4⟩
          · exact ⟨h1, h2, h3, h4⟩
      | cons current rest =>
          simp only [searchLoop]
          split
          · next hcond =>
              have hsc : st.scanned < 120 := hcond.2.1
              split
              · exact ih rest visited st h1 h2 h3 h4
              · split
                · exact ih rest (current :: visited) st h1 h2 h3 h4
                · exact ih _ (current :: visited) _ h1 h2 h3 h4
                · next size content heq =>
                    split
                    · exact ih rest (current :: visited) st h1 h2 h3 h4
                    · next hsize =>
                        have hop : ∀ p ∈ st.opened ++ [current],
                            ∃ sz c, fs p = some (FsEntry.file sz c) ∧ sz ≤ 200000 := by
                          intro p hp
                          rcases List.mem_append.mp hp with hold | hnew
                          · exact h4 p hold
                          · rw [List.mem_singleton.mp hnew]
                            exact ⟨size, content, heq, by omega⟩
                        have hol : (st.opened ++ [current]).length ≤ st.scanned + 1 := by
                          rw [List.length_append]
                          simp only [List.length_singleton]
                          omega
                        match content with
                        | none =>
                            exact ih rest (current :: visited) _ h1
                              (show st.scanned + 1 ≤ 120 by omega) hol hop
                        | some text =>
                            exact ih rest (current :: visited) _
                              (addMatches_le _ _ _ _ _ h1)
                              (show st.scanned + 1 ≤ 120 by omega) hol hop
          · exact ⟨h1, h2, h3, h4⟩

/-- C4: one search-text invocation reports at most 40 matched lines, opens
the content of at most 120 files, and never opens a file larger than
200,000 bytes — oversized files are skipped before any read. -/
theorem C4_search_bounds (resolve : Resolver) (fs : Fs)
    (rxEngine : String → Option (String → Bool)) (fuel : Nat) (argument : String) :
    (searchTextTrace resolve fs rxEngine fuel argument).trace.results.length ≤ 40 ∧
    (searchTextTrace resolve fs rxEngine fuel argument).trace.opened.length ≤ 120 ∧
    (∀ p ∈ (searchTextTrace resolve fs rxEngine fuel argument).trace.opened,
      ∃ sz c, fs p = some (FsEntry.file sz c) ∧ sz ≤ 200000) := by
  simp only [searchTextTrace]
  by_cases hpat : searchPatternOf argument = ""
  · rw [if_pos hpat]
    refine ⟨by simp [searchInit], by simp [searchInit], ?_⟩
    intro p hp
    simp [searchInit] at hp
  · rw [if_neg hpat]
    cases hres : resolve (searchStartArg argument) with
    | none =>
        refine ⟨by simp [searchInit], by simp [searchInit], ?_⟩
        intro p hp
        simp [searchInit] at hp
    | some resolvedPath =>
        have h := searchLoop_bounds fs (rxEngine (searchPatternOf argument))
          (jsToLower (searchPatternOf argument))
          ((resolve ".").getD resolvedPath) fuel [resolvedPath] [] searchInit
          (by simp [searchInit]) (by simp [searchInit]) (by simp [searchInit])
          (by intro p hp; simp [searchInit] at hp)
        exact ⟨h.1, h.2.2.1.trans h.2.1, h.2.2.2⟩

/-- Witness for C4: in a concrete search, the opened file `a.txt` is a
file of size at most 200,000 (and the oversized `big.txt` is not opened). -/
theorem C4_search_bounds_witness :
    (∃ sz c, fsSearch ["a.txt"] = some (FsEntry.file sz c) ∧ sz ≤ 200000) ∧
    ¬ ["big.txt"] ∈ (searchTextTrace resolveStd fsSearch rxNone 5 "hello").trace.opened :=
  ⟨(C4_search_bounds resolveStd fsSearch rxNone 5 "hello").2.2 ["a.txt"] (by decide),
   by decide⟩

/-! ### C10: skip-set filtering of directory entries -/

/-- The loop invariant behind C10: every path pushed from a directory
listing has a final component outside the skip set, and every opened path
is the start path or has such a final component. -/
theorem searchLoop_skip (fs : Fs) (rx : Option (String → Bool))
    (lowerPattern : String) (root start0 : List String) :
    ∀ (fuel : Nat) (queue visited : List (List String)) (st : SearchState),
      (∀ p ∈ queue, p = start0 ∨
        ∃ n, p.getLast? = some n ∧ skipDirectories.contains n = false) →
      (∀ p ∈ st.pushed,
        ∃ n, p.getLast? = some n ∧ skipDirectories.contains n = false) →
      (∀ p ∈ st.opened, p = start0 ∨
        ∃ n, p.getLast? = some n ∧ skipDirectories.contains n = false) →
      ((∀ p ∈ (searchLoop fs rx lowerPattern root fuel queue visited st).pushed,
        ∃ n, p.getLast? = some n ∧ skipDirectories.contains n = false) ∧
       (∀ p ∈ (searchLoop fs rx lowerPattern root fuel queue visited st).opened,
        p = start0 ∨
        ∃ n, p.getLast? = some n ∧ skipDirectories.contains n = false)) := by
  intro fuel
  induction fuel with
  | zero =>
      intro queue visited st _ h2 h3
      exact ⟨h2, h3⟩
  | succ n ih =>
      intro queue visited st h1 h2 h3
      cases queue with
      | nil =>
          simp only [searchLoop]
          split
          · exact ⟨h2, h3⟩
          · exact ⟨h2, h3⟩
      | cons current rest =>
          have h1rest : ∀ p ∈ rest, p = start0 ∨
              ∃ n, p.getLast? = some n ∧ skipDirectories.contains n = false :=
            fun p hp => h1 p (List.mem_cons_of_mem current hp)
          have h1cur := h1 current (List.mem_cons_self current rest)
          simp only [searchLoop]
          split
          · split
            · exact ih rest visited st h1rest h2 h3
            · split
              · exact ih rest (current :: visited) st h1rest h2 h3
              · next entries heq =>
                  have hnew : ∀ p ∈ (entries.filter
                      (fun e => !(skipDirectories.contains e))).map
                      (fun e => current ++ [e]),
                      ∃ n, p.getLast? = some n ∧ skipDirectories.contains n = false := by
                    intro p hp
                    rcases List.mem_map.mp hp with ⟨e, he, rfl⟩
                    refine ⟨e, List.getLast?_concat current, ?_⟩
                    have := List.of_mem_filter he
                    simpa using this
                  refine ih _ (current :: visited) _ ?_ ?_ h3
                  · intro p hp
                    rcases List.mem_append.mp hp with hr | hn
                    · exact h1rest p hr
                    · exact Or.inr (hnew p hn)
                  · intro p hp
                    rcases List.mem_append.mp hp with hr | hn
                    · exact h2 p hr
                    · exact hnew p hn
              · next size content heq =>
                  split
                  · exact ih rest (current :: visited) st h1rest h2 h3
                  · have hop : ∀ p ∈ st.opened ++ [current], p = start0 ∨
                        ∃ n, p.getLast? = some n ∧
                          skipDirectories.contains n = false := by
                      intro p hp
                      rcases List.mem_append.mp hp with hold | hone
                      · exact h3 p hold
                      · rw [List.mem_singleton.mp hone]
                        exact h1cur
                    match content with
                    | none => exact ih rest (current :: visited) _ h1rest h2 hop
                    | some text => exact ih rest (current :: visited) _ h1rest h2 hop
          · exact ⟨h2, h3⟩

/-- C10: during every search-text traversal, directory entries are
filtered by bare name against the skip set before their filesystem type
is consulted: every path enqueued from a directory listing ends in a name
outside `skipDirectories`, and every path whose content is opened is the
traversal's start path or likewise ends in a non-skipped name — so an
entry named e.g. `dist`, file or directory, is never enqueued or scanned
at any depth. -/
theorem C10_skip_names (resolve : Resolver) (fs : Fs)
    (rxEngine : String → Option (String → Bool)) (fuel : Nat) (argument : String) :
    (∀ p ∈ (searchTextTrace resolve fs rxEngine fuel argument).trace.pushed,
      ∃ n, p.getLast? = some n ∧ skipDirectories.contains n = false) ∧
    (∀ p ∈ (searchTextTrace resolve fs rxEngine fuel argument).trace.opened,
      (searchTextTrace resolve fs rxEngine fuel argument).start = some p ∨
      ∃ n, p.getLast? = some n ∧ skipDirectories.contains n = false) := by
  simp only [searchTextTrace]
  by_cases hpat : searchPatternOf argument = ""
  · rw [if_pos hpat]
    constructor
    · intro p hp; simp [searchInit] at hp
    · intro p hp; simp [searchInit] at hp
  · rw [if_neg hpat]
    cases hres : resolve (searchStartArg argument) with
    | none =>
        constructor
        · intro p hp; simp [searchInit] at hp
        · intro p hp; simp [searchInit] at hp
    | some resolvedPath =>
        have h := searchLoop_skip fs (rxEngine (searchPatternOf argument))
          (jsToLower (searchPatternOf argument))
          ((resolve ".").getD resolvedPath) resolvedPath fuel [resolvedPath] [] searchInit
          (by intro p hp; exact Or.inl (List.mem_singleton.mp hp))
          (by intro p hp; simp [searchInit] at hp)
          (by intro p hp; simp [searchInit] at hp)
        refine ⟨h.1, ?_⟩
        intro p hp
        rcases h.2 p hp with hstart | hskip
        · exact Or.inl (by rw [hstart])
        · exact Or.inr hskip

/-- Witness for C10: in a concrete traversal, the pushed entry `src.txt`
has a non-skipped name, while the regular file named `dist` is neither
enqueued nor opened. -/
theorem C10_skip_names_witness :
    (∃ n, (["src.txt"] : List String).getLast? = some n ∧
      skipDirectories.contains n = false) ∧
    ¬ ["dist"] ∈ (searchTextTrace resolveStd fsSkipNames rxNone 5 "hey").trace.pushed ∧
    ¬ ["dist"] ∈ (searchTextTrace resolveStd fsSkipNames rxNone 5 "hey").trace.opened :=
  ⟨(C10_skip_names resolveStd fsSkipNames rxNone 5 "hey").1 ["src.txt"] (by decide),
   by decide, by decide⟩

/-! ### C7: the pending-clarification invariant -/

theorem clarInv_not_awaiting (p : PlanSession) (h1 : pendingSet p = false)
    (h2 : ¬ p.status = PlanStatus.awaiting_clarifications) : clarInv p := by
  unfold clarInv
  rw [h1]
  simp [h2]

theorem clarInv_mk_awaiting (p : PlanSession) (h1 : pendingSet p = true)
    (h2 : p.status = PlanStatus.awaiting_clarifications) : clarInv p := by
  unfold clarInv
  rw [h1, h2]
  simp

/-- The input-consumption step leaves every invariant-satisfying (or
fresh) session in status `orchestrating` with no truthy pending
clarification. -/
theorem applyIncomingInput_reset (prev : Option PlanSession) (freshId : String)
    (now : Nat) (question : String)
    (hprev : ∀ s, prev = some s → clarInv s) :
    (applyIncomingInput prev freshId now question).status =
      PlanStatus.orchestrating ∧
    pendingSet (applyIncomingInput prev freshId now question) = false := by
  cases prev with
  | none =>
      constructor
      · rfl
      · rfl
  | some s =>
      by_cases hc : s.status = PlanStatus.completed
      · have hai : applyIncomingInput (some s) freshId now question =
            startPlanSession freshId now (jsTrim question) := by
          have hres : resolveSession (some s) freshId now (jsTrim question) =
              (startPlanSession freshId now (jsTrim question), true) := by
            simp only [resolveSession]
            rw [if_pos hc]
          simp [applyIncomingInput, hres, startPlanSession, strTruthy]
        rw [hai]
        exact ⟨rfl, rfl⟩
      · have hres : resolveSession (some s) freshId now (jsTrim question) =
            (s, false) := by
          simp only [resolveSession]
          rw [if_neg hc]
        by_cases ht : strTruthy s.pendingClarification = true
        · have hai : applyIncomingInput (some s) freshId now question =
              { s with
                  clarifications :=
                    s.clarifications ++
                      [⟨s.pendingClarification.getD "", jsTrim question⟩],
                  pendingClarification := none,
                  status := PlanStatus.orchestrating } := by
            simp [applyIncomingInput, hres, ht]
          rw [hai]
          exact ⟨rfl, rfl⟩
        · have htf : strTruthy s.pendingClarification = false :=
            Bool.eq_false_iff.mpr ht
          have hnaw : ¬ s.status = PlanStatus.awaiting_clarifications := by
            intro hcon
            have hinv := hprev s rfl
            exact ht (hinv.mpr hcon)
          by_cases ho : s.status = PlanStatus.orchestrating
          · have hai : applyIncomingInput (some s) freshId now question =
                { s with taskHistory := s.taskHistory ++ [jsTrim question] } := by
              simp [applyIncomingInput, hres, htf, ho]
            rw [hai]
            exact ⟨ho, htf⟩
          · have hai : applyIncomingInput (some s) freshId now question =
                startPlanSession freshId now (jsTrim question) := by
              simp [applyIncomingInput, hres, htf, ho, hnaw]
            rw [hai]
            exact ⟨rfl, rfl⟩

theorem prefixSnapshots_fields (s : PlanSession) (execs : List PlanToolExecution) :
    ∀ x ∈ prefixSnapshots s execs,
      x.status = s.status ∧ x.pendingClarification = s.pendingClarification := by
  intro x hx
  rcases List.mem_map.mp hx with ⟨i, _, rfl⟩
  exact ⟨rfl, rfl⟩

/-- C7: whenever the previous session (if any) satisfies the invariant
"`pendingClarification` is set — present and nonempty, the sense in which
the source tests it — iff `status = awaiting_clarifications`", then every
snapshot published during one plan-mode advance and the session the
advance returns satisfy it as well. -/
theorem C7_pending_invariant (resolve : Resolver) (fs : Fs)
    (emsg : List String → String) (rxEngine : String → Option (String → Bool))
    (fuel : Nat) (jsonParse : String → Option JsonVal)
    (prev : Option PlanSession) (freshId : String) (now : Nat)
    (question orchRaw plannerRaw solverRaw : String) (persistLoc : Option String)
    (hprev : ∀ s, prev = some s → clarInv s) :
    clarInv (planModeAdvance resolve fs emsg rxEngine fuel jsonParse prev freshId
      now question orchRaw plannerRaw solverRaw persistLoc).final ∧
    ∀ p ∈ (planModeAdvance resolve fs emsg rxEngine fuel jsonParse prev freshId
      now question orchRaw plannerRaw solverRaw persistLoc).published, clarInv p := by
  have hreset := applyIncomingInput_reset prev freshId now question hprev
  have hst2 : (sessionAfterInput prev freshId now question).status =
      PlanStatus.orchestrating := hreset.1
  have hpd2 : pendingSet (sessionAfterInput prev freshId now question) = false :=
    hreset.2
  have hs2inv : clarInv (sessionAfterInput prev freshId now question) :=
    clarInv_not_awaiting _ hpd2 (by rw [hst2]; intro hcon; cases hcon)
  simp only [planModeAdvance]
  split
  · next hcond =>
      constructor
      · exact clarInv_mk_awaiting _ hcond.2 rfl
      · intro p hp
        rcases List.mem_cons.mp hp with rfl | hp2
        · exact hs2inv
        rcases List.mem_cons.mp hp2 with rfl | hp3
        · exact clarInv_mk_awaiting _ hcond.2 rfl
        · cases hp3
  · constructor
    · exact clarInv_not_awaiting _ hpd2 (by intro hcon; cases hcon)
    · intro p hp
      rcases List.mem_append.mp hp with hpA | hpB
      · rcases List.mem_append.mp hpA with hp1 | hpre
        · rcases List.mem_cons.mp hp1 with rfl | hp1
          · exact hs2inv
          rcases List.mem_cons.mp hp1 with rfl | hp1
          · exact clarInv_not_awaiting _ hpd2 (by intro hcon; cases hcon)
          rcases List.mem_cons.mp hp1 with rfl | hp1
          · exact clarInv_not_awaiting _ hpd2 (by intro hcon; cases hcon)
          rcases List.mem_cons.mp hp1 with rfl | hp1
          · exact clarInv_not_awaiting _ hpd2 (by intro hcon; cases hcon)
          · cases hp1
        · have hf := prefixSnapshots_fields _ _ p hpre
          refine clarInv_not_awaiting p ?_ ?_
          · show strTruthy p.pendingClarification = false
            rw [hf.2]
            exact hpd2
          · rw [hf.1]
            intro hcon
            cases hcon
      · rcases List.mem_cons.mp hpB with rfl | hp4
        · exact clarInv_not_awaiting _ hpd2 (by intro hcon; cases hcon)
        rcases List.mem_cons.mp hp4 with rfl | hp5
        · exact clarInv_not_awaiting _ hpd2 (by intro hcon; cases hcon)
        rcases List.mem_cons.mp hp5 with rfl | hp6
        · exact clarInv_not_awaiting _ hpd2 (by intro hcon; cases hcon)
        · cases hp6

/-- Witness for C7 at a fresh session and a proceeding orchestrator. -/
theorem C7_pending_invariant_witness :
    clarInv (planModeAdvance resolveStd fsDirD emsgStd rxNone 2 (fun _ => none)
      none "s1" 0 "do the task" "plan it" "#E1 = ListFiles[.]" "done" none).final :=
  (C7_pending_invariant resolveStd fsDirD emsgStd rxNone 2 (fun _ => none)
    none "s1" 0 "do the task" "plan it" "#E1 = ListFiles[.]" "done" none
    (fun _ h => Option.noConfusion h)).1

end PlanMode
example : PlanMode.splitSep '|' "a|b|c" = ["a", "b", "c"] := by decide
example : PlanMode.splitSep '|' "a" = ["a"] := by decide
example : PlanMode.splitRN "x\r\ny\nz" = ["x", "y", "z"] := by decide
example : PlanMode.removeAllCI "```json" "```JSON x ```" = " x ```" := by decide
example : PlanMode.strIncludes "hello" "ell" = true := by decide
example : PlanMode.truncateOutput "abc" = "abc" := by decide
